import Mathlib

/-!
Verification of the Game Session Aggregation Engine of `src/index.js`
(a CS2 leaderboard server).  The JavaScript functions relevant to the
claims are embedded shallowly below:

* timestamps are modelled as integers (milliseconds since the epoch, the
  value of `Date.prototype.getTime`); `Date.prototype.toISOString` is
  injective on that value, so the natural key comparison on ISO strings
  is modelled as comparison of the integer timestamps;
* VDF-derived objects are modelled as structures with `Option` fields
  for fields that may be absent; the upstream normalisation loop
  (FTP download, VDF parsing, timestamp parsing) only pushes a record
  when `matchData.SaveFile` exists and a timestamp parses, so `FileInfo`
  carries the already-extracted `timestamp` and `round` and `data` is
  the `SaveFile` object itself;
* a JavaScript object used as a string-keyed map with insertion-order
  iteration is modelled as an association list in insertion order;
* `Array.prototype.sort` with a numeric comparator is a stable sort by
  that key (ECMAScript guarantees stability); it is embedded as a stable
  insertion sort `sortLe`.
-/

/-- One of `FirstHalfScore` / `SecondHalfScore` / `OvertimeScore`:
a pair of team scores whose numeric subfields may be absent
(`saveFile.X.team1 || "0"` in the source treats a missing subfield as 0). -/
structure ScorePair where
  team1 : Option ℤ
  team2 : Option ℤ
deriving DecidableEq

/-- A roster entry of `PlayersOnTeam1` / `PlayersOnTeam2`: `name`,
`kills`, `deaths` may each be absent. -/
structure RawPlayer where
  name : Option String
  kills : Option ℤ
  deaths : Option ℤ
deriving DecidableEq

/-- The `SaveFile` section of one parsed backup file.  The rosters are
kept in JavaScript object-iteration (insertion) order. -/
structure SaveFile where
  map : Option String
  FirstHalfScore : Option ScorePair
  SecondHalfScore : Option ScorePair
  OvertimeScore : Option ScorePair
  PlayersOnTeam1 : Option (List RawPlayer)
  PlayersOnTeam2 : Option (List RawPlayer)
deriving DecidableEq

/-- One element of `fileInfos` as built by the normalisation loop of
`aggregateGameResults` / `aggregateCurrentGame`: the file name, the
parsed timestamp (ms), the parsed round number, and the parsed data.
`data` is the `SaveFile` object (the loop skips files without one). -/
structure FileInfo where
  name : String
  timestamp : ℤ
  round : ℤ
  data : SaveFile
deriving DecidableEq

/-- The summed final score `{ team1: score1, team2: score2 }`. -/
structure FinalScore where
  team1 : ℤ
  team2 : ℤ
deriving DecidableEq

/-- One extracted player `{ name, kills, deaths }`. -/
structure PlayerStat where
  name : String
  kills : ℤ
  deaths : ℤ
deriving DecidableEq

/-- The `players` object `{ team1: [...], team2: [...] }` of a result. -/
structure TeamRosters where
  team1 : List PlayerStat
  team2 : List PlayerStat
deriving DecidableEq

/-- A finalized game result as produced by `aggregateGameResults` and
persisted in `games.json`.  `startTime`/`endTime` model the ISO strings
by their underlying millisecond values. -/
structure GameResult where
  startTime : ℤ
  endTime : ℤ
  duration : String
  map : String
  finalScore : FinalScore
  players : TeamRosters
  winner : List String
  loser : List String
deriving DecidableEq

/-- The current-game rosters hold names only (`players[...].push({ name })`). -/
structure NameRosters where
  team1 : List String
  team2 : List String
deriving DecidableEq

/-- The object returned by `aggregateCurrentGame` when a live game exists. -/
structure CurrentGame where
  startTime : ℤ
  currentSnapshotTime : ℤ
  duration : String
  map : String
  currentScore : FinalScore
  currentRound : ℤ
  players : NameRosters
deriving DecidableEq

/-! ### Stable sorting (`Array.prototype.sort` with a numeric comparator) -/

/-- Stable insertion of `a` into `l`: `a` goes before the first element
`b` with `le a b`; among comparator-ties the previously present elements
keep their earlier positions relative to later-inserted ones. -/
def insertLe {α : Type} (le : α → α → Bool) (a : α) : List α → List α
  | [] => [a]
  | b :: l => if le a b then a :: b :: l else b :: insertLe le a l

/-- Stable insertion sort by the boolean comparator `le`. -/
def sortLe {α : Type} (le : α → α → Bool) : List α → List α
  | [] => []
  | a :: l => insertLe le a (sortLe le l)

/-- The comparator `(a, b) => a.timestamp - b.timestamp` sorts ascending
by timestamp. -/
def tsLe (a b : FileInfo) : Bool := decide (a.timestamp ≤ b.timestamp)

/-- `fileInfos.sort((a, b) => a.timestamp - b.timestamp)`. -/
def sortByTimestamp (l : List FileInfo) : List FileInfo := sortLe tsLe l

/-! ### Session segmentation (`groupFilesIntoGames`) -/

/-- One iteration of the loop body of `groupFilesIntoGames`: state is
`(groups, currentGame)`.  When the open group is non-empty, a record
with `round === 1` closes it; otherwise a record whose `data.SaveFile.map`
differs from the open group's first record's closes it; otherwise the
record is appended.  When the open group is empty both boundary
conditions are false (`currentGame.length > 0` fails) and the record is
appended. -/
def segStep (st : List (List FileInfo) × List FileInfo) (info : FileInfo) :
    List (List FileInfo) × List FileInfo :=
  match st with
  | (groups, []) => (groups, [info])
  | (groups, c0 :: rest) =>
    if info.round = 1 then
      (groups ++ [c0 :: rest], [info])
    else if info.data.map ≠ c0.data.map then
      (groups ++ [c0 :: rest], [info])
    else
      (groups, (c0 :: rest) ++ [info])

/-- The trailing `if (currentGame.length > 0) groups.push(currentGame)`. -/
def segFinish (st : List (List FileInfo) × List FileInfo) : List (List FileInfo) :=
  if st.2.length > 0 then st.1 ++ [st.2] else st.1

/-- `groupFilesIntoGames`: sort by timestamp, run the segmentation loop,
and push the final open group if non-empty. -/
def groupFilesIntoGames (fileInfos : List FileInfo) : List (List FileInfo) :=
  segFinish ((sortByTimestamp fileInfos).foldl segStep ([], []))

/-! ### Result resolution (`aggregateGameResults`, per-group loop body) -/

/-- `padStart(2, "0")`. -/
def pad2 (s : String) : String :=
  if s.length ≥ 2 then s else if s.length = 1 then "0" ++ s else "00"

/-- `formatDuration`: format a duration in whole seconds as `HH:MM:SS`.
JavaScript `Math.floor(x / y)` on integers is floor division `Int.fdiv`
and `%` is the truncated remainder `Int.tmod`. -/
def formatDuration (seconds : ℤ) : String :=
  let sec := seconds
  let h := Int.fdiv sec 3600
  let m := Int.fdiv (Int.tmod sec 3600) 60
  let s := Int.tmod sec 60
  pad2 (toString h) ++ ":" ++ pad2 (toString m) ++ ":" ++ pad2 (toString s)

/-- Team-1 contribution of one optional score component:
`parseInt(component.team1 || "0", 10)` when the component is present,
nothing otherwise. -/
def componentTeam1 : Option ScorePair → ℤ
  | none => 0
  | some sp => sp.team1.getD 0

/-- Team-2 contribution of one optional score component. -/
def componentTeam2 : Option ScorePair → ℤ
  | none => 0
  | some sp => sp.team2.getD 0

/-- `getFinalScore`: sum `FirstHalfScore`, `SecondHalfScore` and
`OvertimeScore` for each team; absent components contribute nothing. -/
def getFinalScore (saveFile : SaveFile) : FinalScore :=
  { team1 := componentTeam1 saveFile.FirstHalfScore + componentTeam1 saveFile.SecondHalfScore
      + componentTeam1 saveFile.OvertimeScore,
    team2 := componentTeam2 saveFile.FirstHalfScore + componentTeam2 saveFile.SecondHalfScore
      + componentTeam2 saveFile.OvertimeScore }

/-- `finalSnapshot.data.SaveFile.map || "Unknown"` (the empty string is
falsy in JavaScript, so it also yields `"Unknown"`). -/
def orUnknown : Option String → String
  | none => "Unknown"
  | some s => if s = "" then "Unknown" else s

/-- Roster-extraction loop body: skip entries whose name is missing,
empty or `"Unknown"`; missing kill/death fields parse as 0. -/
def extractStat (p : RawPlayer) : Option PlayerStat :=
  let name := p.name.getD ""
  if name = "" ∨ name = "Unknown" then none
  else some { name := name, kills := p.kills.getD 0, deaths := p.deaths.getD 0 }

/-- Extract one team's `(name, kills, deaths)` roster from the final
snapshot; an absent `PlayersOnTeamN` object yields the empty roster. -/
def extractTeam : Option (List RawPlayer) → List PlayerStat
  | none => []
  | some tp => tp.filterMap extractStat

/-- The `players = { team1, team2 }` object built from the final snapshot. -/
def extractRosters (sf : SaveFile) : TeamRosters :=
  { team1 := extractTeam sf.PlayersOnTeam1, team2 := extractTeam sf.PlayersOnTeam2 }

/-- The `winner` local of the result loop: `null` (modelled `none`)
when tied, otherwise the winning team's roster
(`score1 > score2 ? players.team1 : players.team2`). -/
def winnerRoster (finalScore : FinalScore) (players : TeamRosters) : Option (List PlayerStat) :=
  if finalScore.team1 ≠ finalScore.team2 then
    if finalScore.team1 > finalScore.team2 then some players.team1 else some players.team2
  else none

/-- The `loser` local of the result loop. -/
def loserRoster (finalScore : FinalScore) (players : TeamRosters) : Option (List PlayerStat) :=
  if finalScore.team1 ≠ finalScore.team2 then
    if finalScore.team1 > finalScore.team2 then some players.team2 else some players.team1
  else none

/-- `winner ? winner.map(p => p.name) : []`. -/
def namesOrEmpty : Option (List PlayerStat) → List String
  | some w => w.map PlayerStat.name
  | none => []

/-- The per-group body of the result loop in `aggregateGameResults` on
the re-sorted group `g0 :: grest`: take first/last snapshots, compute
duration, map and final score, discard on `"00:00:00"` duration or a
0–0 score, extract rosters and determine winner/loser. -/
def resolveSorted (g0 : FileInfo) (grest : List FileInfo) : Option GameResult :=
    let startTime := g0.timestamp
    let finalSnapshot := (g0 :: grest).getLast (by simp)
    let endTime := finalSnapshot.timestamp
    let durationSeconds := Int.fdiv (endTime - startTime) 1000
    let duration := formatDuration durationSeconds
    if duration = "00:00:00" then none
    else
      let map := orUnknown finalSnapshot.data.map
      let finalScore := getFinalScore finalSnapshot.data
      if finalScore.team1 = 0 ∧ finalScore.team2 = 0 then none
      else
        let players := extractRosters finalSnapshot.data
        some { startTime := startTime, endTime := endTime, duration := duration,
               map := map, finalScore := finalScore, players := players,
               winner := namesOrEmpty (winnerRoster finalScore players),
               loser := namesOrEmpty (loserRoster finalScore players) }

/-- Dispatch of the per-group loop body on the re-sorted group (the
source cannot reach an empty group; on `[]` the embedding yields
`none`). -/
def resolveGroup (group : List FileInfo) : Option GameResult :=
  match sortByTimestamp group with
  | [] => none
  | g0 :: grest => resolveSorted g0 grest

/-- `aggregateGameResults` after the normalisation loop: group the
records and resolve each group, keeping the groups that survive the
discard rules. -/
def aggregateGameResults (fileInfos : List FileInfo) : List GameResult :=
  (groupFilesIntoGames fileInfos).filterMap resolveGroup

/-! ### History reconciliation (`updateAllResults`) -/

/-- The duplicate test of the merge loop:
`g.startTime === newGame.startTime && g.map === newGame.map`. -/
def sameKey (g newGame : GameResult) : Bool :=
  decide (g.startTime = newGame.startTime ∧ g.map = newGame.map)

/-- One iteration of the merge loop of `updateAllResults`: append
`newGame` unless some persisted game shares its `(startTime, map)` key. -/
def mergeGame (persistedGames : List GameResult) (newGame : GameResult) : List GameResult :=
  match persistedGames.find? (fun g => sameKey g newGame) with
  | some _ => persistedGames
  | none => persistedGames ++ [newGame]

/-- The full merge loop: fold `mergeGame` over the new games. -/
def mergeGames (persistedGames newGames : List GameResult) : List GameResult :=
  newGames.foldl mergeGame persistedGames

/-- One successful run of `updateAllResults` (the path on which the FTP
listing is non-empty and no exception is thrown, so that line 217 of
`src/index.js` executes).  `diskGames` is the content of `games.json`
when the run starts.  Crucially, `aggregateGameResults` itself executes
`saveGameResults(gameResults)` (line 217), overwriting `games.json` with
just the freshly resolved games, before `updateAllResults` calls
`loadPersistedGames()` (line 274); so the "persisted" list that the
merge loop sees is `newGames`, not `diskGames`.  The returned list is
what is saved back to `games.json` and kept in memory. -/
def updateAllResults (diskGames : List GameResult) (fileInfos : List FileInfo) :
    List GameResult :=
  let newGames := aggregateGameResults fileInfos
  let diskAfterInnerSave := newGames
  let persistedGames := diskAfterInnerSave
  mergeGames persistedGames newGames

/-- The reconciliation that `updateAllResults` documents ("Merge new
game results with persisted ones"): the same merge loop, but applied to
the history that was on disk when the run started.  Used to state what
the buggy composition above fails to do. -/
def intendedUpdateAllResults (diskGames : List GameResult) (fileInfos : List FileInfo) :
    List GameResult :=
  mergeGames diskGames (aggregateGameResults fileInfos)

/-! ### Current-session detection (`aggregateCurrentGame`) -/

/-- `Math.max(...group.map(f => f.round))` for a non-empty list (the
only way it is called; on `[]` the JavaScript spread would give
`-Infinity`, never reached). -/
def maxRound : List ℤ → ℤ
  | [] => 0
  | r :: rs => rs.foldl max r

/-- Name-only roster extraction of `aggregateCurrentGame`
(`players[...].push({ name })`). -/
def nameTeam : Option (List RawPlayer) → List String
  | none => []
  | some tp => tp.filterMap (fun p =>
      let name := p.name.getD ""
      if name = "" ∨ name = "Unknown" then none else some name)

/-- The current-game object built from the re-sorted group in
`aggregateCurrentGame` (`s0 :: srest` is the sorted group).  No
zero-duration or zero-score discard is applied on this path. -/
def buildCurrentGame (s0 : FileInfo) (srest : List FileInfo) : CurrentGame :=
  let startTime := s0.timestamp
  let currentSnapshot := (s0 :: srest).getLast (by simp)
  let endTime := currentSnapshot.timestamp
  let durationSeconds := Int.fdiv (endTime - startTime) 1000
  let duration := formatDuration durationSeconds
  let map := orUnknown currentSnapshot.data.map
  let currentScore := getFinalScore currentSnapshot.data
  let players : NameRosters :=
    { team1 := nameTeam currentSnapshot.data.PlayersOnTeam1,
      team2 := nameTeam currentSnapshot.data.PlayersOnTeam2 }
  let currentRound := maxRound ((s0 :: srest).map FileInfo.round)
  { startTime := startTime, currentSnapshotTime := endTime,
    duration := duration, map := map, currentScore := currentScore,
    currentRound := currentRound, players := players }

/-- `aggregateCurrentGame` after the normalisation loop, with `now` the
value of `Date.now()`: take the last group (absent if there are no
groups or it is empty), read the timestamp of its last record, return
`none` when `now - lastTimestamp > 90 * 1000`, and otherwise build the
current-game view from the re-sorted group via `buildCurrentGame`. -/
def aggregateCurrentGame (fileInfos : List FileInfo) (now : ℤ) : Option CurrentGame :=
  let gameGroups := groupFilesIntoGames fileInfos
  match gameGroups.getLast? with
  | none => none
  | some currentGroup =>
    match currentGroup.getLast? with
    | none => none
    | some lastInfo =>
      if now - lastInfo.timestamp > 90 * 1000 then none
      else
        match sortByTimestamp currentGroup with
        | [] => none
        | s0 :: srest => some (buildCurrentGame s0 srest)

/-! ### Leaderboard aggregation (`aggregateLeaderboardFromGames`)

The JavaScript `tempLeaderboard` object maps player names to stat
records; string-keyed objects iterate in insertion order, so it is
modelled as an association list in insertion order. -/

/-- Per-player accumulator record of `tempLeaderboard`. -/
structure LBStats where
  name : String
  matchesPlayed : ℕ
  wins : ℕ
  totalKills : ℤ
  totalDeaths : ℤ
deriving DecidableEq

/-- The record created when a name is first seen. -/
def initStats (name : String) : LBStats :=
  { name := name, matchesPlayed := 0, wins := 0, totalKills := 0, totalDeaths := 0 }

/-- The unconditional per-appearance update
(`matchesPlayed += 1; totalKills += kills; totalDeaths += deaths`). -/
def bumpStats (p : PlayerStat) (e : LBStats) : LBStats :=
  { e with matchesPlayed := e.matchesPlayed + 1,
           totalKills := e.totalKills + p.kills,
           totalDeaths := e.totalDeaths + p.deaths }

/-- One roster appearance: create the entry if the name is new, then
apply `bumpStats` to that name's entry. -/
def addAppearance (lb : List LBStats) (p : PlayerStat) : List LBStats :=
  if lb.any (fun e => decide (e.name = p.name)) then
    lb.map (fun e => if e.name = p.name then bumpStats p e else e)
  else
    lb ++ [bumpStats p (initStats p.name)]

/-- `tempLeaderboard[player.name].wins += 1` for one winning-roster
member (every such name is already present, having been added by the
appearance loop over the same game's rosters). -/
def addWin (lb : List LBStats) (p : PlayerStat) : List LBStats :=
  lb.map (fun e => if e.name = p.name then { e with wins := e.wins + 1 } else e)

/-- The roster the win loop iterates:
`game.players[score1 > score2 ? "team1" : "team2"]` (only used when the
scores differ). -/
def winningRoster (game : GameResult) : List PlayerStat :=
  if game.finalScore.team1 > game.finalScore.team2 then game.players.team1
  else game.players.team2

/-- The per-game body of `aggregateLeaderboardFromGames`: count every
appearance on both rosters (`team1` then `team2`, the object-literal
iteration order), then on a strict score decision credit a win to every
member of the winning roster. -/
def processGame (lb : List LBStats) (game : GameResult) : List LBStats :=
  let lb1 := game.players.team1.foldl addAppearance lb
  let lb2 := game.players.team2.foldl addAppearance lb1
  if game.finalScore.team1 ≠ game.finalScore.team2 then
    (winningRoster game).foldl addWin lb2
  else lb2

/-- A final leaderboard entry (`{ ...p, kd }`).  In the source `kd` is
the string `toFixed(2)` when `totalDeaths > 0` and the number
`totalKills` otherwise, and is consumed through `parseFloat`; its value
is modelled as a rational. -/
structure LBEntry where
  name : String
  matchesPlayed : ℕ
  wins : ℕ
  totalKills : ℤ
  totalDeaths : ℤ
  kd : ℚ
deriving DecidableEq

/-- `toFixed(2)` on a non-negative value: round to the nearest hundredth,
ties upward ("pick the larger n" in the ECMAScript algorithm). -/
def roundTo2 (q : ℚ) : ℚ := (Rat.floor (q * 100 + 1 / 2) : ℚ) / 100

/-- `p.totalDeaths > 0 ? (p.totalKills / p.totalDeaths).toFixed(2) : p.totalKills`. -/
def computeKd (p : LBStats) : ℚ :=
  if p.totalDeaths > 0 then roundTo2 ((p.totalKills : ℚ) / (p.totalDeaths : ℚ))
  else (p.totalKills : ℚ)

/-- `{ ...p, kd: kd }`. -/
def toEntry (p : LBStats) : LBEntry :=
  { name := p.name, matchesPlayed := p.matchesPlayed, wins := p.wins,
    totalKills := p.totalKills, totalDeaths := p.totalDeaths, kd := computeKd p }

/-- The comparator `(a, b) => parseFloat(b.kd) - parseFloat(a.kd)`
sorts descending by `kd`. -/
def kdDescLe (a b : LBEntry) : Bool := decide (b.kd ≤ a.kd)

/-- `aggregateLeaderboardFromGames`: accumulate `tempLeaderboard` over
all games, derive `kd` for each entry, and sort descending by `kd`. -/
def aggregateLeaderboardFromGames (gameResults : List GameResult) : List LBEntry :=
  let tmp := gameResults.foldl processGame []
  let newLeaderboard := tmp.map toEntry
  sortLe kdDescLe newLeaderboard

/-! ### Observation functions on leaderboard states -/

/-- `tempLeaderboard[n]`: the accumulator entry for name `n`, if any. -/
def lbFind (lb : List LBStats) (n : String) : Option LBStats :=
  lb.find? (fun e => decide (e.name = n))

/-- Lookup of a final leaderboard entry by player name. -/
def entryFind (lb : List LBEntry) (n : String) : Option LBEntry :=
  lb.find? (fun e => decide (e.name = n))

/-- `matchesPlayed` recorded for `n` (0 when `n` is absent). -/
def statMP (lb : List LBStats) (n : String) : ℕ :=
  match lbFind lb n with
  | none => 0
  | some e => e.matchesPlayed

/-- `wins` recorded for `n` (0 when `n` is absent). -/
def statWins (lb : List LBStats) (n : String) : ℕ :=
  match lbFind lb n with
  | none => 0
  | some e => e.wins

/-- `totalKills` recorded for `n` (0 when `n` is absent). -/
def statKills (lb : List LBStats) (n : String) : ℤ :=
  match lbFind lb n with
  | none => 0
  | some e => e.totalKills

/-- `totalDeaths` recorded for `n` (0 when `n` is absent). -/
def statDeaths (lb : List LBStats) (n : String) : ℤ :=
  match lbFind lb n with
  | none => 0
  | some e => e.totalDeaths

/-- The name column of the accumulator. -/
def lbNames (lb : List LBStats) : List String := lb.map LBStats.name

/-! ### Reference sums (the quantities named by the specification) -/

/-- Number of occurrences of name `n` in one roster. -/
def rosterCount (roster : List PlayerStat) (n : String) : ℕ :=
  roster.countP (fun p => decide (p.name = n))

/-- Sum of the kills of the entries of name `n` in one roster. -/
def rosterKills (roster : List PlayerStat) (n : String) : ℤ :=
  ((roster.filter (fun p => decide (p.name = n))).map PlayerStat.kills).sum

/-- Sum of the deaths of the entries of name `n` in one roster. -/
def rosterDeaths (roster : List PlayerStat) (n : String) : ℤ :=
  ((roster.filter (fun p => decide (p.name = n))).map PlayerStat.deaths).sum

/-- Total number of roster appearances of `n` across a history. -/
def specRosterAppearances (games : List GameResult) (n : String) : ℕ :=
  (games.map (fun g => rosterCount g.players.team1 n + rosterCount g.players.team2 n)).sum

/-- Total kills of `n` over all roster appearances across a history. -/
def specTotalKills (games : List GameResult) (n : String) : ℤ :=
  (games.map (fun g => rosterKills g.players.team1 n + rosterKills g.players.team2 n)).sum

/-- Total deaths of `n` over all roster appearances across a history. -/
def specTotalDeaths (games : List GameResult) (n : String) : ℤ :=
  (games.map (fun g => rosterDeaths g.players.team1 n + rosterDeaths g.players.team2 n)).sum

/-- Total number of appearances of `n` on winning rosters across a
history (what the code's win counter actually accumulates). -/
def specWinAppearances (games : List GameResult) (n : String) : ℕ :=
  (games.map (fun g =>
    if g.finalScore.team1 = g.finalScore.team2 then 0
    else rosterCount (winningRoster g) n)).sum

/-- Modelled from the spec: the number of games, in the claim's words,
"in which the player's team had the strictly higher final score" — the
count of history entries with a strict score decision whose winning
roster contains the name. -/
def specWinGames (games : List GameResult) (n : String) : ℕ :=
  games.countP (fun g =>
    decide (g.finalScore.team1 ≠ g.finalScore.team2)
      && (winningRoster g).any (fun p => decide (p.name = n)))

/-! ### Concrete inputs for the leaderboard claims -/

/-- A history of one game in which the name `Alice` occurs twice on the
winning roster (two distinct player ids with the same chosen name; the
losing roster is empty, e.g. all of its names were filtered out). -/
def c7Game : GameResult :=
  { startTime := 0, endTime := 60000, duration := "00:01:00", map := "de_dust2",
    finalScore := { team1 := 2, team2 := 1 },
    players := { team1 := [ { name := "Alice", kills := 5, deaths := 2 },
                            { name := "Alice", kills := 3, deaths := 1 } ],
                 team2 := [] },
    winner := ["Alice", "Alice"], loser := [] }

/-- A history whose single game has one roster entry, `Cara`, with no
deaths; used to instantiate the `kd` claim. -/
def c8Game : GameResult :=
  { startTime := 0, endTime := 60000, duration := "00:01:00", map := "de_dust2",
    finalScore := { team1 := 2, team2 := 1 },
    players := { team1 := [ { name := "Cara", kills := 7, deaths := 0 } ],
                 team2 := [] },
    winner := ["Cara"], loser := [] }

/-- The accumulator entry `aggregateLeaderboardFromGames [c8Game]`
computes for `Cara`. -/
def c8Stats : LBStats :=
  { name := "Cara", matchesPlayed := 1, wins := 1, totalKills := 7, totalDeaths := 0 }

/-- The timestamp the recency check reads: the timestamp of the last
record of the last group, when both exist. -/
def lastGroupLastTs (fileInfos : List FileInfo) : Option ℤ :=
  match (groupFilesIntoGames fileInfos).getLast? with
  | none => none
  | some g => g.getLast?.map FileInfo.timestamp

/-- A snapshot used by the concrete update-cycle run below: map
`de_dust2`, first-half score 2–1, no rosters. -/
def c1SaveFile : SaveFile :=
  { map := some "de_dust2",
    FirstHalfScore := some { team1 := some 2, team2 := some 1 },
    SecondHalfScore := none, OvertimeScore := none,
    PlayersOnTeam1 := none, PlayersOnTeam2 := none }

/-- Two snapshots of one `de_dust2` game, one minute apart: they resolve
to a single fresh `GameResult` with `startTime = 0`. -/
def c1Infos : List FileInfo :=
  [ { name := "backup_round1.txt", timestamp := 0, round := 1, data := c1SaveFile },
    { name := "backup_round2.txt", timestamp := 60000, round := 2, data := c1SaveFile } ]

/-- A game already persisted in `games.json` before the cycle, with a
natural key (`startTime` 999000, map `de_inferno`) different from the
fresh game's. -/
def c1OldGame : GameResult :=
  { startTime := 999000, endTime := 1999000, duration := "00:16:40", map := "de_inferno",
    finalScore := { team1 := 5, team2 := 3 },
    players := { team1 := [], team2 := [] }, winner := [], loser := [] }



/-- A snapshot body with only a map, used by the segmentation witnesses. -/
def c4SaveX : SaveFile :=
  { map := some "de_mirage", FirstHalfScore := none, SecondHalfScore := none,
    OvertimeScore := none, PlayersOnTeam1 := none, PlayersOnTeam2 := none }

/-- The single record of an open group (round 3). -/
def c4Open : FileInfo :=
  { name := "backup_round3.txt", timestamp := 0, round := 3, data := c4SaveX }

/-- A later record with `round = 1` on the same map. -/
def c4Reset : FileInfo :=
  { name := "backup_round1.txt", timestamp := 1000, round := 1, data := c4SaveX }

/-- The result `resolveGroup` produces from `c1Infos`. -/
def c5Result : GameResult :=
  { startTime := 0, endTime := 60000, duration := "00:01:00", map := "de_dust2",
    finalScore := { team1 := 2, team2 := 1 },
    players := { team1 := [], team2 := [] }, winner := [], loser := [] }

/-- An empty snapshot body (no map, no scores, no rosters). -/
def c6SaveFile : SaveFile :=
  { map := none, FirstHalfScore := none, SecondHalfScore := none,
    OvertimeScore := none, PlayersOnTeam1 := none, PlayersOnTeam2 := none }

/-- A single snapshot at time 0: its session has duration `00:00:00`
and score 0-0, yet is still reported as current when recent enough. -/
def c6Infos : List FileInfo :=
  [ { name := "backup_round1.txt", timestamp := 0, round := 1, data := c6SaveFile } ]

/-- A snapshot body with a tied 3-3 first-half score. -/
def c9SaveFile : SaveFile :=
  { map := some "de_nuke", FirstHalfScore := some { team1 := some 3, team2 := some 3 },
    SecondHalfScore := none, OvertimeScore := none,
    PlayersOnTeam1 := none, PlayersOnTeam2 := none }

/-- Two snapshots of a tied game, one minute apart. -/
def c9Infos : List FileInfo :=
  [ { name := "backup_round1.txt", timestamp := 0, round := 1, data := c9SaveFile },
    { name := "backup_round2.txt", timestamp := 60000, round := 2, data := c9SaveFile } ]

/-- The result `resolveGroup` produces from `c9Infos`. -/
def c9Result : GameResult :=
  { startTime := 0, endTime := 60000, duration := "00:01:00", map := "de_nuke",
    finalScore := { team1 := 3, team2 := 3 },
    players := { team1 := [], team2 := [] }, winner := [], loser := [] }


/-! ### Lemmas about sorting -/

theorem perm_insertLe {α : Type} (le : α → α → Bool) (a : α) (l : List α) :
    (insertLe le a l).Perm (a :: l) := by
  induction l with
  | nil => simp [insertLe]
  | cons b l ih =>
    simp only [insertLe]
    by_cases h : le a b = true
    · simp [h]
    · simp only [h, if_neg]
      exact (ih.cons b).trans (List.Perm.swap a b l)

theorem perm_sortLe {α : Type} (le : α → α → Bool) (l : List α) :
    (sortLe le l).Perm l := by
  induction l with
  | nil => simp [sortLe]
  | cons a l ih =>
    exact (perm_insertLe le a (sortLe le l)).trans (ih.cons a)

theorem sorted_insertLe {α : Type} (le : α → α → Bool)
    (htot : ∀ a b, le a b = true ∨ le b a = true)
    (htrans : ∀ a b c, le a b = true → le b c = true → le a c = true)
    (a : α) (l : List α) (hl : l.Pairwise (fun x y => le x y = true)) :
    (insertLe le a l).Pairwise (fun x y => le x y = true) := by
  induction l with
  | nil => simp [insertLe]
  | cons b l ih =>
    rcases List.pairwise_cons.mp hl with ⟨hb, hl'⟩
    simp only [insertLe]
    by_cases h : le a b = true
    · simp only [h, if_pos]
      refine List.pairwise_cons.mpr ⟨?_, hl⟩
      intro x hx
      rcases List.mem_cons.mp hx with hx1 | hx1
      · exact hx1 ▸ h
      · exact htrans a b x h (hb x hx1)
    · simp only [h, if_neg]
      refine List.pairwise_cons.mpr ⟨?_, ih hl'⟩
      intro x hx
      have hx0 := (perm_insertLe le a l).mem_iff.mp hx
      rcases List.mem_cons.mp hx0 with hx1 | hx1
      · rw [hx1]
        rcases htot a b with h' | h'
        · exact absurd h' h
        · exact h'
      · exact hb x hx1

theorem sorted_sortLe {α : Type} (le : α → α → Bool)
    (htot : ∀ a b, le a b = true ∨ le b a = true)
    (htrans : ∀ a b c, le a b = true → le b c = true → le a c = true)
    (l : List α) : (sortLe le l).Pairwise (fun x y => le x y = true) := by
  induction l with
  | nil => simp [sortLe]
  | cons a l ih => exact sorted_insertLe le htot htrans a (sortLe le l) ih

theorem tsLe_total : ∀ a b, tsLe a b = true ∨ tsLe b a = true := by
  intro a b
  simp only [tsLe, decide_eq_true_eq]
  exact le_total a.timestamp b.timestamp

theorem tsLe_trans : ∀ a b c, tsLe a b = true → tsLe b c = true → tsLe a c = true := by
  intro a b c
  simp only [tsLe, decide_eq_true_eq]
  exact le_trans

theorem sortByTimestamp_perm (l : List FileInfo) : (sortByTimestamp l).Perm l :=
  perm_sortLe tsLe l

theorem sortByTimestamp_sorted (l : List FileInfo) :
    (sortByTimestamp l).Pairwise (fun a b => a.timestamp ≤ b.timestamp) := by
  have h := sorted_sortLe tsLe tsLe_total tsLe_trans l
  refine h.imp ?_
  intro a b hab
  exact (decide_eq_true_eq).mp hab


/-! ### Lemmas about the segmentation loop -/

theorem segStep_flatten (acc : List (List FileInfo) × List FileInfo) (a : FileInfo) :
    (segStep acc a).1.flatten ++ (segStep acc a).2 = acc.1.flatten ++ acc.2 ++ [a] := by
  rcases acc with ⟨groups, cur⟩
  cases cur with
  | nil => simp [segStep]
  | cons c0 rest =>
    simp only [segStep]
    split_ifs with h1 h2 <;> simp [List.flatten_append]

theorem foldl_segStep_flatten (l : List FileInfo) (acc : List (List FileInfo) × List FileInfo) :
    (l.foldl segStep acc).1.flatten ++ (l.foldl segStep acc).2 = acc.1.flatten ++ acc.2 ++ l := by
  induction l generalizing acc with
  | nil => simp
  | cons a l ih =>
    rw [List.foldl_cons, ih (segStep acc a), segStep_flatten]
    simp

theorem groupFilesIntoGames_flatten (l : List FileInfo) :
    (groupFilesIntoGames l).flatten = sortByTimestamp l := by
  have h := foldl_segStep_flatten (sortByTimestamp l) ([], [])
  simp only [List.flatten_nil, List.nil_append] at h
  unfold groupFilesIntoGames segFinish
  split_ifs with hlen
  · rw [List.flatten_append, List.flatten_cons, List.flatten_nil, List.append_nil]
    exact h
  · have h2 : ((sortByTimestamp l).foldl segStep ([], [])).2 = [] := by
      cases hc : ((sortByTimestamp l).foldl segStep ([], [])).2 with
      | nil => rfl
      | cons x xs => rw [hc] at hlen; simp at hlen
    rw [h2, List.append_nil] at h
    exact h

theorem foldl_segStep_groups_ne_nil (l : List FileInfo)
    (acc : List (List FileInfo) × List FileInfo) (hacc : ∀ g ∈ acc.1, g ≠ []) :
    ∀ g ∈ (l.foldl segStep acc).1, g ≠ [] := by
  induction l generalizing acc with
  | nil => exact hacc
  | cons a l ih =>
    rw [List.foldl_cons]
    apply ih
    rcases acc with ⟨groups, cur⟩
    cases cur with
    | nil => simpa [segStep] using hacc
    | cons c0 rest =>
      simp only [segStep]
      split_ifs with h1 h2
      · intro g hg
        rcases List.mem_append.mp hg with hm | hm
        · exact hacc g hm
        · simp only [List.mem_singleton] at hm
          rw [hm]
          simp
      · intro g hg
        rcases List.mem_append.mp hg with hm | hm
        · exact hacc g hm
        · simp only [List.mem_singleton] at hm
          rw [hm]
          simp
      · exact hacc

/-- Claim C3: the groups returned by `groupFilesIntoGames` partition the
input: their concatenation is a permutation of the input (every record
appears in exactly one group, none duplicated or dropped), and every
group is internally in ascending (non-decreasing) timestamp order. -/
theorem claim_C3_partition (l : List FileInfo) :
    ((groupFilesIntoGames l).flatten).Perm l ∧
      ∀ g ∈ groupFilesIntoGames l, g.Pairwise (fun a b => a.timestamp ≤ b.timestamp) := by
  constructor
  · rw [groupFilesIntoGames_flatten]
    exact sortByTimestamp_perm l
  · intro g hg
    have hsub : g.Sublist (groupFilesIntoGames l).flatten := List.sublist_flatten_of_mem hg
    rw [groupFilesIntoGames_flatten] at hsub
    exact List.Pairwise.sublist hsub (sortByTimestamp_sorted l)

/-- Claim C4: while the open group is non-empty, a record with
`round === 1` always starts a new group (even when the map is
unchanged — the round-reset branch is tested first); otherwise a record
whose map differs from the open group's first record's map starts a
new group (even when the round stays above 1); otherwise the record is
appended to the open group. -/
theorem claim_C4_boundaries (groups : List (List FileInfo)) (c0 : FileInfo)
    (rest : List FileInfo) (info : FileInfo) :
    (info.round = 1 → segStep (groups, c0 :: rest) info = (groups ++ [c0 :: rest], [info])) ∧
      (info.round ≠ 1 → info.data.map ≠ c0.data.map →
        segStep (groups, c0 :: rest) info = (groups ++ [c0 :: rest], [info])) ∧
      (info.round ≠ 1 → info.data.map = c0.data.map →
        segStep (groups, c0 :: rest) info = (groups, (c0 :: rest) ++ [info])) := by
  refine ⟨fun h1 => ?_, fun h1 h2 => ?_, fun h1 h2 => ?_⟩
  · simp [segStep, h1]
  · simp [segStep, h1, h2]
  · simp [segStep, h1, h2]

/-- Claim C10: the empty input yields zero groups, and every group
emitted by `groupFilesIntoGames` is non-empty, so first/last-record
accesses by the result resolver and the current-session detector are
always defined. -/
theorem claim_C10_groups_nonempty :
    groupFilesIntoGames ([] : List FileInfo) = [] ∧
      ∀ (l : List FileInfo), ∀ g ∈ groupFilesIntoGames l, g ≠ [] := by
  constructor
  · rfl
  · intro l g hg
    unfold groupFilesIntoGames segFinish at hg
    have hgroups : ∀ g ∈ ((sortByTimestamp l).foldl segStep ([], [])).1, g ≠ [] :=
      foldl_segStep_groups_ne_nil (sortByTimestamp l) ([], []) (by simp)
    split_ifs at hg with hlen
    · rcases List.mem_append.mp hg with hm | hm
      · exact hgroups g hm
      · simp only [List.mem_singleton] at hm
        rw [hm]
        intro hc
        rw [hc] at hlen
        simp at hlen
    · exact hgroups g hg

/-! ### Resolver discard and winner/loser claims -/

/-- Claim C5: the result resolver never emits a `GameResult` with
duration `"00:00:00"` or with a 0–0 final score; a session group whose
computed duration or score is degenerate yields no result at all (the
two `continue` statements fire before the result is pushed). -/
theorem claim_C5_discard (group : List FileInfo) (r : GameResult)
    (h : resolveGroup group = some r) :
    r.duration ≠ "00:00:00" ∧ ¬(r.finalScore.team1 = 0 ∧ r.finalScore.team2 = 0) := by
  unfold resolveGroup at h
  cases hs : sortByTimestamp group with
  | nil =>
    rw [hs] at h
    simp at h
  | cons g0 grest =>
    rw [hs] at h
    replace h : resolveSorted g0 grest = some r := h
    simp only [resolveSorted] at h
    split_ifs at h with h1 h2
    rw [← Option.some.inj h]
    exact ⟨h1, h2⟩

/-- Claim C9: when the resolved final score is tied, the emitted result
has `winner = []` and `loser = []` (never null); when the scores differ
the winner/loser name lists come from the corresponding rosters. -/
theorem claim_C9_winner_loser (group : List FileInfo) (r : GameResult)
    (h : resolveGroup group = some r) :
    (r.finalScore.team1 = r.finalScore.team2 → r.winner = [] ∧ r.loser = []) ∧
      (r.finalScore.team1 > r.finalScore.team2 →
        r.winner = r.players.team1.map PlayerStat.name ∧
          r.loser = r.players.team2.map PlayerStat.name) ∧
      (r.finalScore.team2 > r.finalScore.team1 →
        r.winner = r.players.team2.map PlayerStat.name ∧
          r.loser = r.players.team1.map PlayerStat.name) := by
  unfold resolveGroup at h
  cases hs : sortByTimestamp group with
  | nil =>
    rw [hs] at h
    simp at h
  | cons g0 grest =>
    rw [hs] at h
    replace h : resolveSorted g0 grest = some r := h
    simp only [resolveSorted] at h
    split_ifs at h with h1 h2
    rw [← Option.some.inj h]
    refine ⟨fun heq => ?_, fun hgt => ?_, fun hlt => ?_⟩
    · dsimp only at heq ⊢
      simp [namesOrEmpty, winnerRoster, loserRoster, heq]
    · dsimp only at hgt ⊢
      have hne := ne_of_gt hgt
      simp [namesOrEmpty, winnerRoster, loserRoster, hne, hgt]
    · dsimp only at hlt ⊢
      have hne := (ne_of_gt hlt).symm
      have hngt := lt_asymm hlt
      simp [namesOrEmpty, winnerRoster, loserRoster, hne, hngt]

/-! ### Reconciliation claims -/

/-- Claim C2: merging a result whose `(startTime, map)` key already
occurs in the persisted history leaves the history unchanged (hence
unchanged in length); the result is appended exactly when no history
entry shares its key. -/
theorem claim_C2_idempotent (persistedGames : List GameResult) (newGame : GameResult) :
    ((∃ g ∈ persistedGames, g.startTime = newGame.startTime ∧ g.map = newGame.map) →
        mergeGame persistedGames newGame = persistedGames) ∧
      (mergeGame persistedGames newGame = persistedGames ++ [newGame] ↔
        ¬∃ g ∈ persistedGames, g.startTime = newGame.startTime ∧ g.map = newGame.map) := by
  unfold mergeGame
  cases hf : persistedGames.find? (fun g => sameKey g newGame) with
  | some g0 =>
    have hmem := List.mem_of_find?_eq_some hf
    have hkey := List.find?_some hf
    rw [sameKey, decide_eq_true_eq] at hkey
    refine ⟨fun _ => rfl, ?_, ?_⟩
    · intro heq
      exfalso
      have hlen := congrArg List.length heq
      simp at hlen
    · intro hno
      exact absurd ⟨g0, hmem, hkey⟩ hno
  | none =>
    have hnone := List.find?_eq_none.mp hf
    refine ⟨?_, fun _ => ?_, fun _ => rfl⟩
    · rintro ⟨g0, hmem, hkey⟩
      exfalso
      apply hnone g0 hmem
      rw [sameKey]
      exact decide_eq_true hkey
    · rintro ⟨g0, hmem, hkey⟩
      apply hnone g0 hmem
      rw [sameKey]
      exact decide_eq_true hkey

/-- Claim C1 (refuted by the code): a previously persisted game is LOST
by a successful update cycle that does not re-resolve it, because
`aggregateGameResults` overwrites `games.json` with only the fresh
results (line 217) before `updateAllResults` loads the "persisted"
history (line 274).  Here the history `[c1OldGame]` ends up as just the
fresh `de_dust2` game; the merge loop applied to the history that was
actually on disk at the start of the run (`intendedUpdateAllResults`,
matching the spec and the code's own comments) would have kept it. -/
theorem claim_C1_history_clobbered :
    c1OldGame ∉ updateAllResults [c1OldGame] c1Infos ∧
      (updateAllResults [c1OldGame] c1Infos).map GameResult.map = ["de_dust2"] ∧
      c1OldGame ∈ intendedUpdateAllResults [c1OldGame] c1Infos := by decide

/-! ### Current-session recency claim -/

theorem sortByTimestamp_eq_nil {l : List FileInfo} (h : sortByTimestamp l = []) : l = [] := by
  have hperm := sortByTimestamp_perm l
  rw [h] at hperm
  exact (List.Perm.eq_nil hperm.symm)

/-- Claim C6: with a non-empty final session group whose last record has
timestamp `ts`, the current-session detector returns an absent result
exactly when `now - ts` exceeds 90 seconds (90000 ms); otherwise it
always returns a `CurrentSession`, with no zero-duration or zero-score
discard applied. -/
theorem claim_C6_recency (fileInfos : List FileInfo) (now ts : ℤ)
    (h : lastGroupLastTs fileInfos = some ts) :
    (aggregateCurrentGame fileInfos now = none ↔ now - ts > 90 * 1000) := by
  unfold lastGroupLastTs at h
  simp only [aggregateCurrentGame]
  cases hg : (groupFilesIntoGames fileInfos).getLast? with
  | none =>
    rw [hg] at h
    simp at h
  | some currentGroup =>
    rw [hg] at h
    dsimp only at h ⊢
    cases hl : currentGroup.getLast? with
    | none =>
      rw [hl] at h
      simp at h
    | some lastInfo =>
      rw [hl] at h
      dsimp only at h ⊢
      have hts := Option.some.inj h
      rw [← hts]
      by_cases hw : now - lastInfo.timestamp > 90 * 1000
      · rw [if_pos hw]
        exact iff_of_true rfl hw
      · rw [if_neg hw]
        cases hsort : sortByTimestamp currentGroup with
        | nil =>
          exfalso
          have hne : currentGroup ≠ [] := by
            intro hcg
            rw [hcg] at hl
            simp at hl
          exact hne (sortByTimestamp_eq_nil hsort)
        | cons s0 srest =>
          exact iff_of_false (Option.some_ne_none _) hw

/-! ### Lemmas about the leaderboard accumulator -/

theorem lbFind_some_name {lb : List LBStats} {n : String} {e : LBStats}
    (h : lbFind lb n = some e) : e.name = n := by
  have h2 := List.find?_some h
  simpa using h2

theorem lbFind_map_name_eq (f : LBStats → LBStats) (hf : ∀ e, (f e).name = e.name)
    (lb : List LBStats) (n : String) :
    lbFind (lb.map f) n = (lbFind lb n).map f := by
  unfold lbFind
  have hp : ((fun e => decide (e.name = n)) ∘ f) = (fun e : LBStats => decide (e.name = n)) := by
    funext e
    simp [Function.comp, hf e]
  rw [List.find?_map, hp]

theorem lbFind_addAppearance (lb : List LBStats) (p : PlayerStat) (n : String) :
    lbFind (addAppearance lb p) n =
      if p.name = n then some (bumpStats p ((lbFind lb n).getD (initStats p.name)))
      else lbFind lb n := by
  unfold addAppearance
  by_cases hany : lb.any (fun e => decide (e.name = p.name)) = true
  · rw [if_pos hany]
    rw [lbFind_map_name_eq _ (fun e => by by_cases he : e.name = p.name <;> simp [he, bumpStats])]
    by_cases hpn : p.name = n
    · rw [if_pos hpn]
      cases hfind : lbFind lb n with
      | none =>
        exfalso
        rcases List.any_eq_true.mp hany with ⟨e, hmem, hpe⟩
        simp only [decide_eq_true_eq] at hpe
        have hen : e.name = n := hpe.trans hpn
        have hno := List.find?_eq_none.mp hfind e hmem
        simp only [decide_eq_true_eq] at hno
        exact hno hen
      | some e =>
        have hname : e.name = n := lbFind_some_name hfind
        simp [hname, hpn.symm]
    · rw [if_neg hpn]
      cases hfind : lbFind lb n with
      | none => rfl
      | some e =>
        have hname : e.name = n := lbFind_some_name hfind
        have hne : ¬ e.name = p.name := by
          rw [hname]
          exact fun hc => hpn hc.symm
        simp [hne]
  · rw [if_neg hany]
    have hno : ∀ e ∈ lb, ¬ e.name = p.name := by
      intro e hmem hc
      exact hany (List.any_eq_true.mpr ⟨e, hmem, by simpa using hc⟩)
    unfold lbFind
    rw [List.find?_append]
    by_cases hpn : p.name = n
    · have hnone : lb.find? (fun e => decide (e.name = n)) = none := by
        apply List.find?_eq_none.mpr
        intro e hmem
        simp only [decide_eq_true_eq]
        rw [← hpn]
        exact hno e hmem
      rw [hnone]
      simp [hpn, bumpStats, initStats]
    · have hone : [bumpStats p (initStats p.name)].find? (fun e => decide (e.name = n)) = none := by
        simp [bumpStats, initStats, hpn]
      rw [hone]
      simp [hpn]

theorem statMP_addAppearance (lb : List LBStats) (p : PlayerStat) (n : String) :
    statMP (addAppearance lb p) n = statMP lb n + (if p.name = n then 1 else 0) := by
  unfold statMP
  rw [lbFind_addAppearance]
  by_cases hpn : p.name = n
  · rw [if_pos hpn, if_pos hpn]
    cases hfind : lbFind lb n with
    | none => simp [bumpStats, initStats]
    | some e => simp [bumpStats]
  · rw [if_neg hpn, if_neg hpn]
    cases lbFind lb n <;> simp

theorem statWins_addAppearance (lb : List LBStats) (p : PlayerStat) (n : String) :
    statWins (addAppearance lb p) n = statWins lb n := by
  unfold statWins
  rw [lbFind_addAppearance]
  by_cases hpn : p.name = n
  · rw [if_pos hpn]
    cases hfind : lbFind lb n with
    | none => simp [bumpStats, initStats]
    | some e => simp [bumpStats]
  · rw [if_neg hpn]

theorem statKills_addAppearance (lb : List LBStats) (p : PlayerStat) (n : String) :
    statKills (addAppearance lb p) n = statKills lb n + (if p.name = n then p.kills else 0) := by
  unfold statKills
  rw [lbFind_addAppearance]
  by_cases hpn : p.name = n
  · rw [if_pos hpn, if_pos hpn]
    cases hfind : lbFind lb n with
    | none => simp [bumpStats, initStats]
    | some e => simp [bumpStats]
  · rw [if_neg hpn, if_neg hpn]
    cases lbFind lb n <;> simp

theorem statDeaths_addAppearance (lb : List LBStats) (p : PlayerStat) (n : String) :
    statDeaths (addAppearance lb p) n = statDeaths lb n + (if p.name = n then p.deaths else 0) := by
  unfold statDeaths
  rw [lbFind_addAppearance]
  by_cases hpn : p.name = n
  · rw [if_pos hpn, if_pos hpn]
    cases hfind : lbFind lb n with
    | none => simp [bumpStats, initStats]
    | some e => simp [bumpStats]
  · rw [if_neg hpn, if_neg hpn]
    cases lbFind lb n <;> simp

theorem isSome_lbFind_addAppearance (lb : List LBStats) (p : PlayerStat) (n : String) :
    (lbFind (addAppearance lb p) n).isSome
      = ((lbFind lb n).isSome || decide (p.name = n)) := by
  rw [lbFind_addAppearance]
  by_cases hpn : p.name = n
  · simp [hpn]
  · simp [hpn]

theorem rosterKills_cons (p : PlayerStat) (ros : List PlayerStat) (n : String) :
    rosterKills (p :: ros) n = (if p.name = n then p.kills else 0) + rosterKills ros n := by
  unfold rosterKills
  rw [List.filter_cons]
  by_cases hpn : p.name = n
  · simp [hpn]
  · simp [hpn]

theorem rosterDeaths_cons (p : PlayerStat) (ros : List PlayerStat) (n : String) :
    rosterDeaths (p :: ros) n = (if p.name = n then p.deaths else 0) + rosterDeaths ros n := by
  unfold rosterDeaths
  rw [List.filter_cons]
  by_cases hpn : p.name = n
  · simp [hpn]
  · simp [hpn]

theorem rosterCount_cons (p : PlayerStat) (ros : List PlayerStat) (n : String) :
    rosterCount (p :: ros) n = (if p.name = n then 1 else 0) + rosterCount ros n := by
  unfold rosterCount
  rw [List.countP_cons]
  by_cases hpn : p.name = n
  · simp [hpn]
    omega
  · simp [hpn]

theorem statMP_foldl_addAppearance (roster : List PlayerStat) (lb : List LBStats) (n : String) :
    statMP (roster.foldl addAppearance lb) n = statMP lb n + rosterCount roster n := by
  induction roster generalizing lb with
  | nil => simp [rosterCount]
  | cons p ros ih =>
    rw [List.foldl_cons, ih, statMP_addAppearance, rosterCount_cons]
    omega

theorem statWins_foldl_addAppearance (roster : List PlayerStat) (lb : List LBStats) (n : String) :
    statWins (roster.foldl addAppearance lb) n = statWins lb n := by
  induction roster generalizing lb with
  | nil => rfl
  | cons p ros ih => rw [List.foldl_cons, ih, statWins_addAppearance]

theorem statKills_foldl_addAppearance (roster : List PlayerStat) (lb : List LBStats) (n : String) :
    statKills (roster.foldl addAppearance lb) n = statKills lb n + rosterKills roster n := by
  induction roster generalizing lb with
  | nil => simp [rosterKills]
  | cons p ros ih =>
    rw [List.foldl_cons, ih, statKills_addAppearance, rosterKills_cons]
    ring

theorem statDeaths_foldl_addAppearance (roster : List PlayerStat) (lb : List LBStats) (n : String) :
    statDeaths (roster.foldl addAppearance lb) n = statDeaths lb n + rosterDeaths roster n := by
  induction roster generalizing lb with
  | nil => simp [rosterDeaths]
  | cons p ros ih =>
    rw [List.foldl_cons, ih, statDeaths_addAppearance, rosterDeaths_cons]
    ring

theorem isSome_lbFind_foldl_addAppearance (roster : List PlayerStat) (lb : List LBStats)
    (n : String) :
    (lbFind (roster.foldl addAppearance lb) n).isSome
      = ((lbFind lb n).isSome || roster.any (fun p => decide (p.name = n))) := by
  induction roster generalizing lb with
  | nil => simp
  | cons p ros ih =>
    rw [List.foldl_cons, ih, isSome_lbFind_addAppearance]
    simp [Bool.or_assoc, Bool.or_comm, Bool.or_left_comm]

theorem lbFind_addWin (lb : List LBStats) (p : PlayerStat) (n : String) :
    lbFind (addWin lb p) n
      = (lbFind lb n).map
          (fun e => if e.name = p.name then { e with wins := e.wins + 1 } else e) := by
  unfold addWin
  exact lbFind_map_name_eq _ (fun e => by by_cases he : e.name = p.name <;> simp [he]) lb n

theorem statWins_addWin (lb : List LBStats) (p : PlayerStat) (n : String) :
    statWins (addWin lb p) n =
      statWins lb n
        + (if p.name = n then (if (lbFind lb n).isSome = true then 1 else 0) else 0) := by
  unfold statWins
  rw [lbFind_addWin]
  cases hfind : lbFind lb n with
  | none => simp
  | some e =>
    have hname : e.name = n := lbFind_some_name hfind
    by_cases hpn : p.name = n
    · have he : e.name = p.name := by rw [hname, hpn]
      simp [he, hpn]
    · have he : ¬ e.name = p.name := by
        rw [hname]
        exact fun hc => hpn hc.symm
      simp [he, hpn]

theorem statMP_addWin (lb : List LBStats) (p : PlayerStat) (n : String) :
    statMP (addWin lb p) n = statMP lb n := by
  unfold statMP
  rw [lbFind_addWin]
  cases lbFind lb n with
  | none => rfl
  | some e => by_cases he : e.name = p.name <;> simp [he]

theorem statKills_addWin (lb : List LBStats) (p : PlayerStat) (n : String) :
    statKills (addWin lb p) n = statKills lb n := by
  unfold statKills
  rw [lbFind_addWin]
  cases lbFind lb n with
  | none => rfl
  | some e => by_cases he : e.name = p.name <;> simp [he]

theorem statDeaths_addWin (lb : List LBStats) (p : PlayerStat) (n : String) :
    statDeaths (addWin lb p) n = statDeaths lb n := by
  unfold statDeaths
  rw [lbFind_addWin]
  cases lbFind lb n with
  | none => rfl
  | some e => by_cases he : e.name = p.name <;> simp [he]

theorem isSome_lbFind_addWin (lb : List LBStats) (p : PlayerStat) (n : String) :
    (lbFind (addWin lb p) n).isSome = (lbFind lb n).isSome := by
  rw [lbFind_addWin]
  cases lbFind lb n <;> simp

theorem statWins_foldl_addWin (team : List PlayerStat) (lb : List LBStats) (n : String)
    (hpres : (lbFind lb n).isSome = true ∨ rosterCount team n = 0) :
    statWins (team.foldl addWin lb) n = statWins lb n + rosterCount team n := by
  induction team generalizing lb with
  | nil => simp [rosterCount]
  | cons p team ih =>
    rw [List.foldl_cons]
    by_cases hpn : p.name = n
    · have hsome : (lbFind lb n).isSome = true := by
        rcases hpres with hp | hp
        · exact hp
        · rw [rosterCount_cons] at hp
          simp [hpn] at hp
      have hpres2 : (lbFind (addWin lb p) n).isSome = true ∨ rosterCount team n = 0 :=
        Or.inl (by rw [isSome_lbFind_addWin]; exact hsome)
      rw [ih (addWin lb p) hpres2, statWins_addWin, rosterCount_cons]
      simp [hpn, hsome]
      omega
    · have hpres2 : (lbFind (addWin lb p) n).isSome = true ∨ rosterCount team n = 0 := by
        rcases hpres with hp | hp
        · exact Or.inl (by rw [isSome_lbFind_addWin]; exact hp)
        · rw [rosterCount_cons] at hp
          simp [hpn] at hp
          exact Or.inr hp
      rw [ih (addWin lb p) hpres2, statWins_addWin, rosterCount_cons]
      simp [hpn]

theorem statMP_foldl_addWin (team : List PlayerStat) (lb : List LBStats) (n : String) :
    statMP (team.foldl addWin lb) n = statMP lb n := by
  induction team generalizing lb with
  | nil => rfl
  | cons p team ih => rw [List.foldl_cons, ih, statMP_addWin]

theorem statKills_foldl_addWin (team : List PlayerStat) (lb : List LBStats) (n : String) :
    statKills (team.foldl addWin lb) n = statKills lb n := by
  induction team generalizing lb with
  | nil => rfl
  | cons p team ih => rw [List.foldl_cons, ih, statKills_addWin]

theorem statDeaths_foldl_addWin (team : List PlayerStat) (lb : List LBStats) (n : String) :
    statDeaths (team.foldl addWin lb) n = statDeaths lb n := by
  induction team generalizing lb with
  | nil => rfl
  | cons p team ih => rw [List.foldl_cons, ih, statDeaths_addWin]

theorem statMP_processGame (lb : List LBStats) (g : GameResult) (n : String) :
    statMP (processGame lb g) n =
      statMP lb n + (rosterCount g.players.team1 n + rosterCount g.players.team2 n) := by
  simp only [processGame]
  by_cases hsc : g.finalScore.team1 ≠ g.finalScore.team2
  · rw [if_pos hsc, statMP_foldl_addWin, statMP_foldl_addAppearance,
      statMP_foldl_addAppearance]
    omega
  · rw [if_neg hsc, statMP_foldl_addAppearance, statMP_foldl_addAppearance]
    omega

theorem statKills_processGame (lb : List LBStats) (g : GameResult) (n : String) :
    statKills (processGame lb g) n =
      statKills lb n + (rosterKills g.players.team1 n + rosterKills g.players.team2 n) := by
  simp only [processGame]
  by_cases hsc : g.finalScore.team1 ≠ g.finalScore.team2
  · rw [if_pos hsc, statKills_foldl_addWin, statKills_foldl_addAppearance,
      statKills_foldl_addAppearance]
    ring
  · rw [if_neg hsc, statKills_foldl_addAppearance, statKills_foldl_addAppearance]
    ring

theorem statDeaths_processGame (lb : List LBStats) (g : GameResult) (n : String) :
    statDeaths (processGame lb g) n =
      statDeaths lb n + (rosterDeaths g.players.team1 n + rosterDeaths g.players.team2 n) := by
  simp only [processGame]
  by_cases hsc : g.finalScore.team1 ≠ g.finalScore.team2
  · rw [if_pos hsc, statDeaths_foldl_addWin, statDeaths_foldl_addAppearance,
      statDeaths_foldl_addAppearance]
    ring
  · rw [if_neg hsc, statDeaths_foldl_addAppearance, statDeaths_foldl_addAppearance]
    ring

theorem winningRoster_sub_any (g : GameResult) (n : String)
    (h : (winningRoster g).any (fun p => decide (p.name = n)) = true) :
    (g.players.team1.any (fun p => decide (p.name = n))
      || g.players.team2.any (fun p => decide (p.name = n))) = true := by
  unfold winningRoster at h
  by_cases hgt : g.finalScore.team1 > g.finalScore.team2
  · rw [if_pos hgt] at h
    simp [h]
  · rw [if_neg hgt] at h
    simp [h]

theorem statWins_processGame (lb : List LBStats) (g : GameResult) (n : String) :
    statWins (processGame lb g) n =
      statWins lb n + (if g.finalScore.team1 = g.finalScore.team2 then 0
        else rosterCount (winningRoster g) n) := by
  simp only [processGame]
  by_cases hsc : g.finalScore.team1 ≠ g.finalScore.team2
  · rw [if_pos hsc, if_neg hsc]
    have hpres : (lbFind (g.players.team2.foldl addAppearance
        (g.players.team1.foldl addAppearance lb)) n).isSome = true
        ∨ rosterCount (winningRoster g) n = 0 := by
      by_cases hcnt : rosterCount (winningRoster g) n = 0
      · exact Or.inr hcnt
      · left
        have hpos : 0 < (winningRoster g).countP (fun p => decide (p.name = n)) :=
          Nat.pos_of_ne_zero hcnt
        rcases List.countP_pos_iff.mp hpos with ⟨p, hmem, hp⟩
        have hany : (winningRoster g).any (fun p => decide (p.name = n)) = true :=
          List.any_eq_true.mpr ⟨p, hmem, hp⟩
        have hor := winningRoster_sub_any g n hany
        rw [isSome_lbFind_foldl_addAppearance, isSome_lbFind_foldl_addAppearance]
        rcases Bool.or_eq_true_iff.mp hor with h1 | h1
        · rw [h1]
          simp
        · rw [h1]
          simp
    rw [statWins_foldl_addWin _ _ _ hpres, statWins_foldl_addAppearance,
      statWins_foldl_addAppearance]
  · rw [if_neg hsc, if_pos (not_ne_iff.mp hsc), statWins_foldl_addAppearance,
      statWins_foldl_addAppearance]
    omega

theorem statMP_foldl_processGame (games : List GameResult) (lb : List LBStats) (n : String) :
    statMP (games.foldl processGame lb) n = statMP lb n + specRosterAppearances games n := by
  induction games generalizing lb with
  | nil => simp [specRosterAppearances]
  | cons g games ih =>
    rw [List.foldl_cons, ih, statMP_processGame]
    unfold specRosterAppearances
    rw [List.map_cons, List.sum_cons]
    omega

theorem statKills_foldl_processGame (games : List GameResult) (lb : List LBStats) (n : String) :
    statKills (games.foldl processGame lb) n = statKills lb n + specTotalKills games n := by
  induction games generalizing lb with
  | nil => simp [specTotalKills]
  | cons g games ih =>
    rw [List.foldl_cons, ih, statKills_processGame]
    unfold specTotalKills
    rw [List.map_cons, List.sum_cons]
    ring

theorem statDeaths_foldl_processGame (games : List GameResult) (lb : List LBStats) (n : String) :
    statDeaths (games.foldl processGame lb) n = statDeaths lb n + specTotalDeaths games n := by
  induction games generalizing lb with
  | nil => simp [specTotalDeaths]
  | cons g games ih =>
    rw [List.foldl_cons, ih, statDeaths_processGame]
    unfold specTotalDeaths
    rw [List.map_cons, List.sum_cons]
    ring

theorem statWins_foldl_processGame (games : List GameResult) (lb : List LBStats) (n : String) :
    statWins (games.foldl processGame lb) n = statWins lb n + specWinAppearances games n := by
  induction games generalizing lb with
  | nil => simp [specWinAppearances]
  | cons g games ih =>
    rw [List.foldl_cons, ih, statWins_processGame]
    unfold specWinAppearances
    rw [List.map_cons, List.sum_cons]
    omega

theorem lbNames_map_name_eq (f : LBStats → LBStats) (hf : ∀ e, (f e).name = e.name)
    (lb : List LBStats) : lbNames (lb.map f) = lbNames lb := by
  unfold lbNames
  have hp : (LBStats.name ∘ f) = LBStats.name := by
    funext e
    simp [Function.comp, hf e]
  rw [List.map_map, hp]

theorem nodup_lbNames_addAppearance (lb : List LBStats) (p : PlayerStat)
    (h : (lbNames lb).Nodup) : (lbNames (addAppearance lb p)).Nodup := by
  unfold addAppearance
  by_cases hany : lb.any (fun e => decide (e.name = p.name)) = true
  · rw [if_pos hany]
    rw [lbNames_map_name_eq _ (fun e => by by_cases he : e.name = p.name <;> simp [he, bumpStats])]
    exact h
  · rw [if_neg hany]
    unfold lbNames
    rw [List.map_append, List.nodup_append]
    refine ⟨h, by simp, ?_⟩
    intro a ha hb
    simp only [List.map_cons, List.map_nil, List.mem_singleton, bumpStats, initStats] at hb
    rcases List.mem_map.mp ha with ⟨e, hmem, hename⟩
    apply hany
    exact List.any_eq_true.mpr ⟨e, hmem, decide_eq_true (hename.trans hb)⟩

theorem nodup_lbNames_addWin (lb : List LBStats) (p : PlayerStat)
    (h : (lbNames lb).Nodup) : (lbNames (addWin lb p)).Nodup := by
  unfold addWin
  rw [lbNames_map_name_eq _ (fun e => by by_cases he : e.name = p.name <;> simp [he])]
  exact h

theorem nodup_lbNames_foldl_addAppearance (roster : List PlayerStat) (lb : List LBStats)
    (h : (lbNames lb).Nodup) : (lbNames (roster.foldl addAppearance lb)).Nodup := by
  induction roster generalizing lb with
  | nil => exact h
  | cons p ros ih =>
    rw [List.foldl_cons]
    exact ih (addAppearance lb p) (nodup_lbNames_addAppearance lb p h)

theorem nodup_lbNames_foldl_addWin (team : List PlayerStat) (lb : List LBStats)
    (h : (lbNames lb).Nodup) : (lbNames (team.foldl addWin lb)).Nodup := by
  induction team generalizing lb with
  | nil => exact h
  | cons p team ih =>
    rw [List.foldl_cons]
    exact ih (addWin lb p) (nodup_lbNames_addWin lb p h)

theorem nodup_lbNames_processGame (lb : List LBStats) (g : GameResult)
    (h : (lbNames lb).Nodup) : (lbNames (processGame lb g)).Nodup := by
  simp only [processGame]
  by_cases hsc : g.finalScore.team1 ≠ g.finalScore.team2
  · rw [if_pos hsc]
    exact nodup_lbNames_foldl_addWin _ _
      (nodup_lbNames_foldl_addAppearance _ _ (nodup_lbNames_foldl_addAppearance _ _ h))
  · rw [if_neg hsc]
    exact nodup_lbNames_foldl_addAppearance _ _ (nodup_lbNames_foldl_addAppearance _ _ h)

theorem nodup_lbNames_foldl_processGame (games : List GameResult) (lb : List LBStats)
    (h : (lbNames lb).Nodup) : (lbNames (games.foldl processGame lb)).Nodup := by
  induction games generalizing lb with
  | nil => exact h
  | cons g games ih =>
    rw [List.foldl_cons]
    exact ih (processGame lb g) (nodup_lbNames_processGame lb g h)

theorem entryFind_eq_some_of_mem (l : List LBEntry) (e : LBEntry) (n : String)
    (hnd : (l.map LBEntry.name).Nodup) (he : e ∈ l) (hn : e.name = n) :
    entryFind l n = some e := by
  induction l with
  | nil => simp at he
  | cons a l ih =>
    rw [List.map_cons] at hnd
    rcases List.nodup_cons.mp hnd with ⟨hna, hnd2⟩
    rcases List.mem_cons.mp he with rfl | hmem
    · unfold entryFind
      exact @List.find?_cons_of_pos LBEntry (fun x => decide (x.name = n)) e l (by simp [hn])
    · have hann : a.name ≠ n := by
        intro hc
        apply hna
        rw [hc, ← hn]
        exact List.mem_map.mpr ⟨e, hmem, rfl⟩
      unfold entryFind
      rw [@List.find?_cons_of_neg LBEntry (fun x => decide (x.name = n)) a l (by simp [hann])]
      exact ih hnd2 hmem

/-- Claim C7 counterexample: in a history of a single game where the
name `Alice` occurs twice on the winning roster, the leaderboard credits
`wins = 2` to `Alice`, while the number of games in which Alice's team
had the strictly higher final score is 1 — so `wins` is not "the number
of games in which the player's team had the strictly higher final
score". -/
theorem claim_C7_counterexample :
    (entryFind (aggregateLeaderboardFromGames [c7Game]) "Alice").map LBEntry.wins = some 2
      ∧ specWinGames [c7Game] "Alice" = 1 := by decide

/-- Claim C7 as amended: for every name appearing in some roster, the
leaderboard has exactly one entry for that name, whose `matchesPlayed`,
`totalKills` and `totalDeaths` are the sums over all of the player's
roster appearances, and whose `wins` is the total number of the
player's appearances on winning rosters (which coincides with the
number of won games whenever the name occurs at most once per roster). -/
theorem claim_C7_leaderboard_sums (games : List GameResult) (n : String)
    (h : 0 < specRosterAppearances games n) :
    ∃ e, entryFind (aggregateLeaderboardFromGames games) n = some e ∧
      e.name = n ∧
      e.matchesPlayed = specRosterAppearances games n ∧
      e.totalKills = specTotalKills games n ∧
      e.totalDeaths = specTotalDeaths games n ∧
      e.wins = specWinAppearances games n := by
  have h0mp : statMP ([] : List LBStats) n = 0 := rfl
  have h0w : statWins ([] : List LBStats) n = 0 := rfl
  have h0k : statKills ([] : List LBStats) n = 0 := rfl
  have h0d : statDeaths ([] : List LBStats) n = 0 := rfl
  have hmp : statMP (games.foldl processGame []) n = specRosterAppearances games n := by
    rw [statMP_foldl_processGame, h0mp, Nat.zero_add]
  have hwins : statWins (games.foldl processGame []) n = specWinAppearances games n := by
    rw [statWins_foldl_processGame, h0w, Nat.zero_add]
  have hkills : statKills (games.foldl processGame []) n = specTotalKills games n := by
    rw [statKills_foldl_processGame, h0k, zero_add]
  have hdeaths : statDeaths (games.foldl processGame []) n = specTotalDeaths games n := by
    rw [statDeaths_foldl_processGame, h0d, zero_add]
  cases hf : lbFind (games.foldl processGame []) n with
  | none =>
    exfalso
    have hz : statMP (games.foldl processGame []) n = 0 := by
      unfold statMP
      rw [hf]
    rw [hmp] at hz
    omega
  | some p =>
    have hpname : p.name = n := lbFind_some_name hf
    have hpmem : p ∈ games.foldl processGame [] := List.mem_of_find?_eq_some hf
    have hp1 : p.matchesPlayed = specRosterAppearances games n := by
      unfold statMP at hmp
      rw [hf] at hmp
      exact hmp
    have hp2 : p.wins = specWinAppearances games n := by
      unfold statWins at hwins
      rw [hf] at hwins
      exact hwins
    have hp3 : p.totalKills = specTotalKills games n := by
      unfold statKills at hkills
      rw [hf] at hkills
      exact hkills
    have hp4 : p.totalDeaths = specTotalDeaths games n := by
      unfold statDeaths at hdeaths
      rw [hf] at hdeaths
      exact hdeaths
    refine ⟨toEntry p, ?_, hpname, hp1, hp3, hp4, hp2⟩
    have hperm := perm_sortLe kdDescLe ((games.foldl processGame []).map toEntry)
    have hmem2 : toEntry p ∈ (games.foldl processGame []).map toEntry :=
      List.mem_map.mpr ⟨p, hpmem, rfl⟩
    have hmem3 : toEntry p ∈ sortLe kdDescLe ((games.foldl processGame []).map toEntry) :=
      hperm.mem_iff.mpr hmem2
    have hndtmp : (lbNames (games.foldl processGame [])).Nodup :=
      nodup_lbNames_foldl_processGame games [] (by simp [lbNames])
    have hnd1 : (((games.foldl processGame []).map toEntry).map LBEntry.name).Nodup := by
      rw [List.map_map]
      have hcomp : (LBEntry.name ∘ toEntry) = LBStats.name := by
        funext e
        rfl
      rw [hcomp]
      exact hndtmp
    have hnd2 : ((sortLe kdDescLe ((games.foldl processGame []).map toEntry)).map
        LBEntry.name).Nodup :=
      ((List.Perm.map LBEntry.name hperm).symm).nodup hnd1
    show entryFind (sortLe kdDescLe ((games.foldl processGame []).map toEntry)) n
      = some (toEntry p)
    exact entryFind_eq_some_of_mem _ _ _ hnd2 hmem3 hpname

/-- Claim C8: every leaderboard entry with a (spec-guaranteed)
non-negative death count has `kd = totalKills` when `totalDeaths = 0`
and otherwise `kd = totalKills / totalDeaths` rounded to two decimal
places (half-up, the `toFixed(2)` rounding, modelled exactly over the
rationals). -/
theorem claim_C8_kd (games : List GameResult) (e : LBEntry)
    (he : e ∈ aggregateLeaderboardFromGames games) (hd : 0 ≤ e.totalDeaths) :
    (e.totalDeaths = 0 → e.kd = (e.totalKills : ℚ)) ∧
      (e.totalDeaths ≠ 0 →
        e.kd = roundTo2 ((e.totalKills : ℚ) / (e.totalDeaths : ℚ))) := by
  replace he : e ∈ sortLe kdDescLe ((games.foldl processGame []).map toEntry) := he
  have hperm := perm_sortLe kdDescLe ((games.foldl processGame []).map toEntry)
  have he2 : e ∈ (games.foldl processGame []).map toEntry := hperm.mem_iff.mp he
  rcases List.mem_map.mp he2 with ⟨p, hpmem, hpe⟩
  subst hpe
  constructor
  · intro h0
    have hz : p.totalDeaths = 0 := h0
    simp [toEntry, computeKd, hz]
  · intro hne
    have hpos : 0 < p.totalDeaths := by
      rcases lt_or_eq_of_le hd with hlt | heq
      · exact hlt
      · exact absurd heq.symm hne
    simp [toEntry, computeKd, hpos]

/-! ### Witnesses -/

/-- Witness for claim C2: merging a result whose key is already present
leaves the history unchanged. -/
theorem claim_C2_witness : mergeGame [c1OldGame] c1OldGame = [c1OldGame] :=
  (claim_C2_idempotent [c1OldGame] c1OldGame).1
    ⟨c1OldGame, List.mem_singleton.mpr rfl, rfl, rfl⟩

/-- Witness for claim C3 at a concrete input. -/
theorem claim_C3_witness :
    ((groupFilesIntoGames c1Infos).flatten).Perm c1Infos ∧
      c1Infos.Pairwise (fun a b => a.timestamp ≤ b.timestamp) :=
  ⟨(claim_C3_partition c1Infos).1, (claim_C3_partition c1Infos).2 c1Infos (by decide)⟩

/-- Witness for claim C4: a `round = 1` record closes the open group
even though the map is unchanged. -/
theorem claim_C4_witness : segStep ([], [c4Open]) c4Reset = ([[c4Open]], [c4Reset]) :=
  (claim_C4_boundaries [] c4Open [] c4Reset).1 (by decide)

/-- Witness for claim C5 at a concrete resolved group. -/
theorem claim_C5_witness :
    resolveGroup c1Infos = some c5Result ∧
      (c5Result.duration ≠ "00:00:00" ∧
        ¬(c5Result.finalScore.team1 = 0 ∧ c5Result.finalScore.team2 = 0)) :=
  ⟨by decide, claim_C5_discard c1Infos c5Result (by decide)⟩

/-- Witness for claim C6: a zero-duration, zero-score session is
reported absent at 91 seconds and present at 89 seconds. -/
theorem claim_C6_witness :
    aggregateCurrentGame c6Infos 91000 = none ∧ aggregateCurrentGame c6Infos 89000 ≠ none :=
  ⟨(claim_C6_recency c6Infos 91000 0 (by decide)).mpr (by decide),
    fun hc => absurd ((claim_C6_recency c6Infos 89000 0 (by decide)).mp hc) (by decide)⟩

/-- Witness for the amended claim C7 at a concrete history. -/
theorem claim_C7_witness :
    (entryFind (aggregateLeaderboardFromGames [c7Game]) "Alice").map LBEntry.matchesPlayed
      = some (specRosterAppearances [c7Game] "Alice") := by
  obtain ⟨e, hfind, hname, hmp, hk, hd, hw⟩ :=
    claim_C7_leaderboard_sums [c7Game] "Alice" (by decide)
  rw [hfind]
  simpa using hmp

/-- Witness for claim C8 at the concrete one-entry leaderboard of
`[c8Game]`. -/
theorem claim_C8_witness :
    ((toEntry c8Stats).totalDeaths = 0 → (toEntry c8Stats).kd = ((toEntry c8Stats).totalKills : ℚ)) ∧
      ((toEntry c8Stats).totalDeaths ≠ 0 →
        (toEntry c8Stats).kd
          = roundTo2 (((toEntry c8Stats).totalKills : ℚ) / ((toEntry c8Stats).totalDeaths : ℚ))) := by
  have heq : aggregateLeaderboardFromGames [c8Game] = [toEntry c8Stats] := rfl
  have hmem : toEntry c8Stats ∈ aggregateLeaderboardFromGames [c8Game] := by
    rw [heq]
    exact List.mem_singleton.mpr rfl
  exact claim_C8_kd [c8Game] (toEntry c8Stats) hmem (by decide)

/-- Witness for claim C9: the tied group yields empty winner and loser
lists. -/
theorem claim_C9_witness : c9Result.winner = [] ∧ c9Result.loser = [] :=
  (claim_C9_winner_loser c9Infos c9Result (by decide)).1 (by decide)

/-- Witness for claim C10 at a concrete input. -/
theorem claim_C10_witness : ([c4Open] : List FileInfo) ≠ [] :=
  claim_C10_groups_nonempty.2 [c4Open] [c4Open] (by decide)
